import Mathlib

/-!
Verification of the fault-tolerant recursive directory scanner of
`dropbox_folders.py` (`scan_folders_with_progress` and its inner `walk_dir`,
plus the long-path helper `to_long_path`).

The filesystem is modelled as a tree of entries.  Each entry records the
outcome of the two OS calls the scanner performs on it:

  * `probe`  — the result of `entry.is_dir(follow_symlinks=False)`:
               either a Bool, or the `OSError` the call raises;
  * `listErr` / `children` — what `os.scandir` on this entry would do:
               raise `listErr` when it is `some e`, otherwise yield
               `children` in order.

The scanner is a state-passing translation of `walk_dir`.  The shared
cancellation flag is written by the UI thread at an arbitrary moment, so the
model counts observable events (each cooperative flag check and each append
to `rows`/`skipped` is one tick) and takes the flip moment `cancelAt` as a
parameter: the flag reads true at tick `t` iff `cancelAt ≤ t` (with
`cancelAt = none` for a scan during which Cancel is never pressed).  The
per-append fields `rowTicks`/`skipTicks` are pure bookkeeping recording the
tick at which each append happened; they let the cancellation-interleaving
property be stated without further instrumentation.
-/

/-- errno.ENOENT. -/
def errnoENOENT : Int := 2

/-- errno.EACCES. -/
def errnoEACCES : Int := 13

/-- An OSError as the scanner inspects it: the optional Windows-specific
`winerror` attribute (absent on other platforms), `errno`, and the message
`str(e)` produces. -/
structure OSErr where
  winerror : Option Int
  errno : Int
  msg : String
deriving DecidableEq, Repr

/-- Reason string recorded when `entry.is_dir(follow_symlinks=False)` raises
(lines 170–176 of dropbox_folders.py). -/
def probeReason (e : OSErr) : String :=
  if e.winerror = some 3 then
    "WinError 3 (path not found) - likely placeholder/online-only or moved"
  else
    "is_dir failed: " ++ e.msg

/-- Reason string recorded when listing a directory raises (lines 194–203 of
dropbox_folders.py). -/
def listReason (e : OSErr) : String :=
  if e.winerror = some 3 then
    "WinError 3 (path not found) - likely placeholder/online-only or moved"
  else if e.errno = errnoENOENT then
    "ENOENT (no such file or directory)"
  else if e.errno = errnoEACCES then
    "EACCES (permission denied)"
  else
    "os error: " ++ e.msg

/-- Python's `str.startswith`, at character level. -/
def strStartsWith (s p : String) : Bool :=
  p.data.isPrefixOf s.data

/-- `to_long_path` (lines 130–142).  The Python code guards on
`IS_WINDOWS and enable`; the single flag here stands for that conjunction. -/
def to_long_path (p : String) (winEnable : Bool) : String :=
  if winEnable then
    if strStartsWith p "\\\\?\\" then p
    else if strStartsWith p "\\\\" then "\\\\?\\UNC" ++ p.drop 1
    else "\\\\?\\" ++ p
  else p

/-- One directory entry of the modelled filesystem tree (see the header). -/
inductive FSEntry where
  | mk (name : String) (probe : Except OSErr Bool)
       (listErr : Option OSErr) (children : List FSEntry)
deriving Repr

def FSEntry.name : FSEntry → String
  | .mk n _ _ _ => n

def FSEntry.probe : FSEntry → Except OSErr Bool
  | .mk _ p _ _ => p

def FSEntry.listErr : FSEntry → Option OSErr
  | .mk _ _ l _ => l

def FSEntry.children : FSEntry → List FSEntry
  | .mk _ _ _ c => c

/-- `os.path.join`, with the separator fixed to "/". -/
def joinPath (d n : String) : String := d ++ "/" ++ n

/-- The scanner's mutable state: the accumulating `rows` and `skipped`
lists, the `found` counter, and the event-tick bookkeeping described in the
header. -/
structure ScanState where
  rows : List (List String)
  skipped : List (String × String)
  found : Nat
  tick : Nat
  rowTicks : List Nat
  skipTicks : List Nat
deriving DecidableEq, Repr

/-- What `cancel_state["cancel"]` reads at tick `t`. -/
def cancelOn (cancelAt : Option Nat) (t : Nat) : Bool :=
  match cancelAt with
  | none => false
  | some k => decide (k ≤ t)

/-- A cooperative cancellation check: one observable event. -/
def doCheck (s : ScanState) : ScanState :=
  { s with tick := s.tick + 1 }

/-- `rows.append(row); found += 1`: one observable event. -/
def addRow (r : List String) (s : ScanState) : ScanState :=
  { s with rows := s.rows ++ [r], found := s.found + 1,
           rowTicks := s.rowTicks ++ [s.tick], tick := s.tick + 1 }

/-- `skipped.append((path, reason))`: one observable event. -/
def addSkip (p reason : String) (s : ScanState) : ScanState :=
  { s with skipped := s.skipped ++ [(p, reason)],
           skipTicks := s.skipTicks ++ [s.tick], tick := s.tick + 1 }

/-! Projections of the three state operations, kept as simp lemmas so that
states can stay in `doCheck`/`addRow`/`addSkip` form during proofs. -/

@[simp] theorem doCheck_rows (s : ScanState) : (doCheck s).rows = s.rows := rfl

@[simp] theorem doCheck_skipped (s : ScanState) : (doCheck s).skipped = s.skipped := rfl

@[simp] theorem doCheck_found (s : ScanState) : (doCheck s).found = s.found := rfl

@[simp] theorem doCheck_tick (s : ScanState) : (doCheck s).tick = s.tick + 1 := rfl

@[simp] theorem doCheck_rowTicks (s : ScanState) : (doCheck s).rowTicks = s.rowTicks := rfl

@[simp] theorem doCheck_skipTicks (s : ScanState) : (doCheck s).skipTicks = s.skipTicks := rfl

@[simp] theorem addRow_rows (r : List String) (s : ScanState) :
    (addRow r s).rows = s.rows ++ [r] := rfl

@[simp] theorem addRow_skipped (r : List String) (s : ScanState) :
    (addRow r s).skipped = s.skipped := rfl

@[simp] theorem addRow_found (r : List String) (s : ScanState) :
    (addRow r s).found = s.found + 1 := rfl

@[simp] theorem addRow_tick (r : List String) (s : ScanState) :
    (addRow r s).tick = s.tick + 1 := rfl

@[simp] theorem addRow_rowTicks (r : List String) (s : ScanState) :
    (addRow r s).rowTicks = s.rowTicks ++ [s.tick] := rfl

@[simp] theorem addRow_skipTicks (r : List String) (s : ScanState) :
    (addRow r s).skipTicks = s.skipTicks := rfl

@[simp] theorem addSkip_rows (p reason : String) (s : ScanState) :
    (addSkip p reason s).rows = s.rows := rfl

@[simp] theorem addSkip_skipped (p reason : String) (s : ScanState) :
    (addSkip p reason s).skipped = s.skipped ++ [(p, reason)] := rfl

@[simp] theorem addSkip_found (p reason : String) (s : ScanState) :
    (addSkip p reason s).found = s.found := rfl

@[simp] theorem addSkip_tick (p reason : String) (s : ScanState) :
    (addSkip p reason s).tick = s.tick + 1 := rfl

@[simp] theorem addSkip_rowTicks (p reason : String) (s : ScanState) :
    (addSkip p reason s).rowTicks = s.rowTicks := rfl

@[simp] theorem addSkip_skipTicks (p reason : String) (s : ScanState) :
    (addSkip p reason s).skipTicks = s.skipTicks ++ [s.tick] := rfl

mutual

/-- `walk_dir(dir_path, ancestors)` (lines 156–203): check the flag, compute
`scan_target`, list the directory; a listing failure records one
SkippedEntry for the directory itself. -/
def walkDir (ca : Option Nat) (ul : Bool) (dirPath : String)
    (listErr : Option OSErr) (children : List FSEntry)
    (anc : List String) (s : ScanState) : ScanState :=
  if cancelOn ca s.tick then doCheck s
  else
    let s1 := doCheck s
    match listErr with
    | some e => addSkip dirPath (listReason e) s1
    | none => walkEntries ca ul children (to_long_path dirPath ul) anc s1
termination_by sizeOf children + 1

/-- The `for entry in it` loop body of `walk_dir` (lines 164–193): per entry,
check the flag, probe `is_dir`, and either skip, ignore a file, or append a
Row and recurse.  The source's per-subtree `except RecursionError` guard has
no counterpart here: recursion in the model is structural over the finite
tree, so that branch is unreachable. -/
def walkEntries (ca : Option Nat) (ul : Bool) (es : List FSEntry)
    (tgt : String) (anc : List String) (s : ScanState) : ScanState :=
  match es with
  | [] => s
  | .mk name probe lerr ch :: rest =>
    if cancelOn ca s.tick then doCheck s
    else
      let s1 := doCheck s
      let epath := joinPath tgt name
      match probe with
      | .error err =>
          walkEntries ca ul rest tgt anc (addSkip epath (probeReason err) s1)
      | .ok false => walkEntries ca ul rest tgt anc s1
      | .ok true =>
          let row := anc ++ [name]
          let s2 := addRow row s1
          let s3 := walkDir ca ul epath lerr ch row s2
          walkEntries ca ul rest tgt anc s3
termination_by sizeOf es

end

/-- `scan_folders_with_progress(root, …)` (lines 143–206) restricted to its
observable effects: the root Row is seeded, `found` starts at 1, and
`walk_dir(root_lp, [root.name])` runs to completion.  `rootListErr` and
`rootChildren` describe what listing the root would do. -/
def scan_folders_with_progress (rootName rootPath : String) (ul : Bool)
    (rootListErr : Option OSErr) (rootChildren : List FSEntry)
    (ca : Option Nat) : ScanState :=
  let root_lp := to_long_path rootPath ul
  let s0 := addRow [rootName] ⟨[], [], 0, 0, [], []⟩
  walkDir ca ul root_lp rootListErr rootChildren [rootName] s0

/-! ### Small-step equations for the walker, used throughout the proofs. -/

theorem cancelOn_none (t : Nat) : cancelOn none t = false := rfl

theorem walkEntries_nil (ca : Option Nat) (ul : Bool) (tgt : String)
    (anc : List String) (s : ScanState) :
    walkEntries ca ul [] tgt anc s = s := by
  simp [walkEntries]

theorem walkEntries_cons_cancel (ca : Option Nat) (ul : Bool) (e : FSEntry)
    (rest : List FSEntry) (tgt : String) (anc : List String) (s : ScanState)
    (h : cancelOn ca s.tick = true) :
    walkEntries ca ul (e :: rest) tgt anc s = doCheck s := by
  obtain ⟨name, probe, lerr, ch⟩ := e
  simp [walkEntries, h]

theorem walkEntries_cons_probeErr (ca : Option Nat) (ul : Bool) (name : String)
    (err : OSErr) (lerr : Option OSErr) (ch rest : List FSEntry) (tgt : String)
    (anc : List String) (s : ScanState) (h : cancelOn ca s.tick = false) :
    walkEntries ca ul (.mk name (.error err) lerr ch :: rest) tgt anc s
      = walkEntries ca ul rest tgt anc
          (addSkip (joinPath tgt name) (probeReason err) (doCheck s)) := by
  simp [walkEntries, h]

theorem walkEntries_cons_file (ca : Option Nat) (ul : Bool) (name : String)
    (lerr : Option OSErr) (ch rest : List FSEntry) (tgt : String)
    (anc : List String) (s : ScanState) (h : cancelOn ca s.tick = false) :
    walkEntries ca ul (.mk name (.ok false) lerr ch :: rest) tgt anc s
      = walkEntries ca ul rest tgt anc (doCheck s) := by
  simp [walkEntries, h]

theorem walkEntries_cons_dir (ca : Option Nat) (ul : Bool) (name : String)
    (lerr : Option OSErr) (ch rest : List FSEntry) (tgt : String)
    (anc : List String) (s : ScanState) (h : cancelOn ca s.tick = false) :
    walkEntries ca ul (.mk name (.ok true) lerr ch :: rest) tgt anc s
      = walkEntries ca ul rest tgt anc
          (walkDir ca ul (joinPath tgt name) lerr ch (anc ++ [name])
            (addRow (anc ++ [name]) (doCheck s))) := by
  simp [walkEntries, h]

theorem walkDir_cancel (ca : Option Nat) (ul : Bool) (p : String)
    (lerr : Option OSErr) (ch : List FSEntry) (anc : List String) (s : ScanState)
    (h : cancelOn ca s.tick = true) :
    walkDir ca ul p lerr ch anc s = doCheck s := by
  simp [walkDir, h]

theorem walkDir_fail (ca : Option Nat) (ul : Bool) (p : String) (e : OSErr)
    (ch : List FSEntry) (anc : List String) (s : ScanState)
    (h : cancelOn ca s.tick = false) :
    walkDir ca ul p (some e) ch anc s = addSkip p (listReason e) (doCheck s) := by
  simp [walkDir, h]

theorem walkDir_ok (ca : Option Nat) (ul : Bool) (p : String)
    (ch : List FSEntry) (anc : List String) (s : ScanState)
    (h : cancelOn ca s.tick = false) :
    walkDir ca ul p none ch anc s
      = walkEntries ca ul ch (to_long_path p ul) anc (doCheck s) := by
  simp [walkDir, h]

/-! ### Tree measures -/

/-- Every filesystem call in the (reachable part of the) tree succeeds: all
probes return a Bool and every listing of a probed directory succeeds. -/
def listAllFF : List FSEntry → Bool
  | [] => true
  | .mk _ probe lerr ch :: rest =>
    (match probe with
     | .error _ => false
     | .ok false => true
     | .ok true => lerr.isNone && listAllFF ch) && listAllFF rest
termination_by es => sizeOf es

/-- Number of directories (entries whose probe answers true) reachable
through probed directories. -/
def listDirCount : List FSEntry → Nat
  | [] => 0
  | .mk _ probe _ ch :: rest =>
    (match probe with
     | .ok true => 1 + listDirCount ch
     | _ => 0) + listDirCount rest
termination_by es => sizeOf es

/-- Structural depth of the tree below a directory: the root's immediate
entries are at depth 1. -/
def listDepth : List FSEntry → Nat
  | [] => 0
  | .mk _ _ _ ch :: rest => max (1 + listDepth ch) (listDepth rest)
termination_by es => sizeOf es

/-- Number of appends (Rows or SkippedEntries) performed at an event tick at
which the cancellation flag (flipping at tick `f`) already read true. -/
def lateCount (f : Nat) (s : ScanState) : Nat :=
  (s.rowTicks.countP fun t => decide (f ≤ t))
    + (s.skipTicks.countP fun t => decide (f ≤ t))

/-! ### The no-cancellation walk is compositional over the entry list. -/

theorem walkEntries_append (a b : List FSEntry) (ul : Bool) (tgt : String)
    (anc : List String) (s : ScanState) :
    walkEntries none ul (a ++ b) tgt anc s
      = walkEntries none ul b tgt anc (walkEntries none ul a tgt anc s) := by
  induction a generalizing s with
  | nil => simp [walkEntries_nil]
  | cons e a ih =>
    obtain ⟨name, probe, lerr, ch⟩ := e
    cases probe with
    | error err =>
        rw [List.cons_append, walkEntries_cons_probeErr _ _ _ _ _ _ _ _ _ _ (cancelOn_none _),
            walkEntries_cons_probeErr _ _ _ _ _ _ _ _ _ _ (cancelOn_none _), ih]
    | ok bb =>
        cases bb with
        | false =>
            rw [List.cons_append, walkEntries_cons_file _ _ _ _ _ _ _ _ _ (cancelOn_none _),
                walkEntries_cons_file _ _ _ _ _ _ _ _ _ (cancelOn_none _), ih]
        | true =>
            rw [List.cons_append, walkEntries_cons_dir _ _ _ _ _ _ _ _ _ (cancelOn_none _),
                walkEntries_cons_dir _ _ _ _ _ _ _ _ _ (cancelOn_none _), ih]

/-- C9: for the concrete tree where root "A" contains directories "B" and
"C" (in that order), "B" contains "D", and listing "C" fails with permission
denied, the scan returns rows ["A"], ["A","B"], ["A","B","D"], ["A","C"] in
that order, exactly one skipped entry, for path "A/C" with the
permission-denied reason, and a final found counter of 4. -/
theorem scan_concrete_scenario :
    (scan_folders_with_progress "A" "A" false none
        [FSEntry.mk "B" (.ok true) none [FSEntry.mk "D" (.ok true) none []],
         FSEntry.mk "C" (.ok true) (some ⟨none, 13, "denied"⟩) []] none).rows
      = [["A"], ["A", "B"], ["A", "B", "D"], ["A", "C"]] ∧
    (scan_folders_with_progress "A" "A" false none
        [FSEntry.mk "B" (.ok true) none [FSEntry.mk "D" (.ok true) none []],
         FSEntry.mk "C" (.ok true) (some ⟨none, 13, "denied"⟩) []] none).skipped
      = [("A/C", "EACCES (permission denied)")] ∧
    (scan_folders_with_progress "A" "A" false none
        [FSEntry.mk "B" (.ok true) none [FSEntry.mk "D" (.ok true) none []],
         FSEntry.mk "C" (.ok true) (some ⟨none, 13, "denied"⟩) []] none).found
      = 4 := by
  refine ⟨?_, ?_, ?_⟩ <;>
    simp [scan_folders_with_progress, walkDir, walkEntries, cancelOn, doCheck,
          addRow, addSkip, to_long_path, strStartsWith, joinPath, listReason,
          errnoENOENT, errnoEACCES]

/-- C6: if the cancellation flag is already true before any entry of the
root directory is processed (flip tick 0), the scan returns normally with
exactly the root's own Row and an empty skip list. -/
theorem scan_cancelled_at_start (rootName rootPath : String) (ul : Bool)
    (rootListErr : Option OSErr) (rootChildren : List FSEntry) :
    (scan_folders_with_progress rootName rootPath ul rootListErr rootChildren
        (some 0)).rows = [[rootName]] ∧
    (scan_folders_with_progress rootName rootPath ul rootListErr rootChildren
        (some 0)).skipped = [] := by
  have h : walkDir (some 0) ul (to_long_path rootPath ul) rootListErr rootChildren
      [rootName] ⟨[[rootName]], [], 1, 1, [0], []⟩
      = doCheck ⟨[[rootName]], [], 1, 1, [0], []⟩ :=
    walkDir_cancel _ _ _ _ _ _ _ (by rfl)
  constructor <;> simp [scan_folders_with_progress, h, doCheck, addRow]

/-- C5: when listing a directory's contents fails outright with OS error
`e`, the scanner records exactly one SkippedEntry for that directory itself
(path `p`, reason classified by `listReason`), appends no Row, and visits
none of the directory's children (the result does not depend on `ch`). -/
theorem walkDir_listing_failure (ca : Option Nat) (ul : Bool) (p : String)
    (e : OSErr) (ch : List FSEntry) (anc : List String) (s : ScanState)
    (h : cancelOn ca s.tick = false) :
    walkDir ca ul p (some e) ch anc s =
      { s with skipped := s.skipped ++ [(p, listReason e)],
               skipTicks := s.skipTicks ++ [s.tick + 1],
               tick := s.tick + 2 } := by
  rw [walkDir_fail _ _ _ _ _ _ _ h]
  simp [doCheck, addSkip]

/-- Witness for C5 at a concrete input: a directory "A/C" whose listing
fails with EACCES, scanned from a state holding only the root row. -/
theorem walkDir_listing_failure_witness :
    walkDir none false "A/C" (some ⟨none, 13, "denied"⟩) [] ["A", "C"]
        ⟨[["A"]], [], 1, 1, [0], []⟩ =
      ⟨[["A"]], [("A/C", "EACCES (permission denied)")], 1, 3, [0], [2]⟩ := by
  simpa [listReason, errnoENOENT, errnoEACCES] using
    walkDir_listing_failure none false "A/C" ⟨none, 13, "denied"⟩ [] ["A", "C"]
      ⟨[["A"]], [], 1, 1, [0], []⟩ (by decide)

/-- C3: an entry whose `is_dir` probe raises OS error `err` contributes
exactly one SkippedEntry (with the probe-failure classification), no Row, is
not descended into (its `lerr`/`ch` fields are arbitrary and unused), and
all remaining siblings `post` are still processed. -/
theorem walkEntries_probe_failure (pre post : List FSEntry) (name : String)
    (err : OSErr) (lerr : Option OSErr) (ch : List FSEntry) (ul : Bool)
    (tgt : String) (anc : List String) (s : ScanState) :
    walkEntries none ul (pre ++ FSEntry.mk name (Except.error err) lerr ch :: post)
        tgt anc s
      = walkEntries none ul post tgt anc
          { walkEntries none ul pre tgt anc s with
              skipped := (walkEntries none ul pre tgt anc s).skipped
                  ++ [(joinPath tgt name, probeReason err)],
              skipTicks := (walkEntries none ul pre tgt anc s).skipTicks
                  ++ [(walkEntries none ul pre tgt anc s).tick + 1],
              tick := (walkEntries none ul pre tgt anc s).tick + 2 } := by
  rw [walkEntries_append, walkEntries_cons_probeErr _ _ _ _ _ _ _ _ _ _ (cancelOn_none _)]
  simp [doCheck, addSkip]

/-! ### Long-path rewriting (`to_long_path`) -/

theorem strStartsWith_lp_append (s : String) :
    strStartsWith ("\\\\?\\" ++ s) "\\\\?\\" = true := by
  rw [strStartsWith, String.data_append, List.isPrefixOf_iff_prefix]
  exact List.prefix_append _ _

theorem strStartsWith_unc_append (s : String) :
    strStartsWith ("\\\\?\\UNC" ++ s) "\\\\?\\" = true := by
  rw [strStartsWith, String.data_append, List.isPrefixOf_iff_prefix]
  refine ⟨['U', 'N', 'C'] ++ s.data, ?_⟩
  rfl

theorem strStartsWith_lp_of_not_unc (s : String)
    (h : strStartsWith s "\\\\" = false) :
    strStartsWith s "\\\\?\\" = false := by
  by_contra hc
  rw [Bool.not_eq_false, strStartsWith, List.isPrefixOf_iff_prefix] at hc
  rw [Bool.eq_false_iff] at h
  apply h
  rw [strStartsWith, List.isPrefixOf_iff_prefix]
  exact List.IsPrefix.trans ⟨['?', '\\'], rfl⟩ hc

/-- C8: case analysis of `to_long_path` with the rewriting enabled: a path
already carrying the extended-length prefix is returned unchanged; a
network-share path (leading double backslash without the prefix) becomes
the UNC prefix followed by the original minus its first backslash; any other
path just gets the prefix prepended; and with either flag value the
function is idempotent. -/
theorem to_long_path_spec (s : String) :
    (strStartsWith s "\\\\?\\" = true → to_long_path s true = s) ∧
    (strStartsWith s "\\\\?\\" = false → strStartsWith s "\\\\" = true →
      to_long_path s true = "\\\\?\\UNC" ++ s.drop 1) ∧
    (strStartsWith s "\\\\" = false → to_long_path s true = "\\\\?\\" ++ s) ∧
    (∀ b : Bool, to_long_path (to_long_path s b) b = to_long_path s b) := by
  refine ⟨fun h1 => by simp [to_long_path, h1],
          fun h1 h2 => by simp [to_long_path, h1, h2],
          fun h2 => by simp [to_long_path, h2, strStartsWith_lp_of_not_unc s h2],
          fun b => ?_⟩
  cases b with
  | false => simp [to_long_path]
  | true =>
    by_cases h1 : strStartsWith s "\\\\?\\" = true
    · simp [to_long_path, h1]
    · rw [Bool.not_eq_true] at h1
      by_cases h2 : strStartsWith s "\\\\" = true
      · have e1 : to_long_path s true = "\\\\?\\UNC" ++ s.drop 1 := by
          simp [to_long_path, h1, h2]
        rw [e1]
        simp [to_long_path, strStartsWith_unc_append]
      · rw [Bool.not_eq_true] at h2
        have e1 : to_long_path s true = "\\\\?\\" ++ s := by
          simp [to_long_path, h2, strStartsWith_lp_of_not_unc s h2]
        rw [e1]
        simp [to_long_path, strStartsWith_lp_append]

/-! ### Error-reason classification (C4) -/

/-- Counterexample to C4 as stated: an entry "B" whose `is_dir` probe raises
EACCES (no winerror) is recorded with the raw `is_dir failed: …` reason, not
with the "EACCES (permission denied)" classification that the same error
receives when it occurs while listing a directory. -/
theorem probe_eacces_not_classified :
    (scan_folders_with_progress "A" "A" false none
        [FSEntry.mk "B" (.error ⟨none, 13, "[Errno 13] Permission denied: 'B'"⟩)
          none []] none).skipped
      = [("A/B", "is_dir failed: [Errno 13] Permission denied: 'B'")] ∧
    listReason ⟨none, 13, "[Errno 13] Permission denied: 'B'"⟩
      = "EACCES (permission denied)" ∧
    ("is_dir failed: [Errno 13] Permission denied: 'B'" : String)
      ≠ "EACCES (permission denied)" := by
  refine ⟨?_, by simp [listReason, errnoENOENT, errnoEACCES], by decide⟩
  simp [scan_folders_with_progress, walkDir, walkEntries, cancelOn, doCheck,
        addRow, addSkip, to_long_path, strStartsWith, joinPath, probeReason]

/-- C4 (amended): only directory-listing failures receive the full §7
classification (WinError 3, then ENOENT, then EACCES, then the raw OS
message); probe failures are classified solely by WinError 3 and any other
probe failure — including EACCES and ENOENT — is recorded raw as
`is_dir failed: <message>`, which differs from the permission-denied
classification a listing failure with the same error receives.  The last two
conjuncts tie the two classifiers to what the scanner records. -/
theorem reason_classification (e : OSErr) (name tgt p : String)
    (lerr : Option OSErr) (ch : List FSEntry) (ul : Bool) (anc : List String)
    (s : ScanState) (ca : Option Nat) :
    (e.winerror = some 3 → probeReason e = listReason e) ∧
    (e.winerror ≠ some 3 → probeReason e = "is_dir failed: " ++ e.msg) ∧
    (e.winerror ≠ some 3 → e.errno = errnoENOENT →
      listReason e = "ENOENT (no such file or directory)") ∧
    (e.winerror ≠ some 3 → e.errno = errnoEACCES →
      listReason e = "EACCES (permission denied)") ∧
    (e.winerror ≠ some 3 → e.errno = errnoEACCES → probeReason e ≠ listReason e) ∧
    ((walkEntries none ul [FSEntry.mk name (Except.error e) lerr ch] tgt anc s).skipped
      = s.skipped ++ [(joinPath tgt name, probeReason e)]) ∧
    (cancelOn ca s.tick = false →
      (walkDir ca ul p (some e) ch anc s).skipped = s.skipped ++ [(p, listReason e)]) := by
  refine ⟨fun h1 => by simp [probeReason, listReason, h1],
          fun h1 => by simp [probeReason, h1],
          fun h1 h2 => by simp [listReason, h1, h2],
          fun h1 h2 => by simp [listReason, errnoENOENT, errnoEACCES, h1, h2],
          fun h1 h2 => ?_, ?_, fun hc => ?_⟩
  · simp only [probeReason, listReason, h1, h2, errnoENOENT, errnoEACCES]
    norm_num
    intro hcontra
    have hd := congrArg String.data hcontra
    rw [String.data_append] at hd
    have h3 := congrArg List.head? hd
    simp [List.head?_append] at h3
  · rw [walkEntries_cons_probeErr _ _ _ _ _ _ _ _ _ _ (cancelOn_none _),
        walkEntries_nil]
    simp [addSkip, doCheck]
  · rw [walkDir_fail _ _ _ _ _ _ _ hc]
    simp [addSkip, doCheck]

/-! ### C1: fault-free scans count directories exactly. -/

theorem walkEntries_faultfree (n : Nat) : ∀ es : List FSEntry, sizeOf es ≤ n →
    ∀ (ul : Bool) (tgt : String) (anc : List String) (s : ScanState),
    listAllFF es = true →
    (walkEntries none ul es tgt anc s).rows.length
        = s.rows.length + listDirCount es ∧
    (walkEntries none ul es tgt anc s).found = s.found + listDirCount es ∧
    (walkEntries none ul es tgt anc s).skipped = s.skipped := by
  induction n with
  | zero =>
    intro es hsz
    exfalso
    cases es <;> simp at hsz
  | succ n ih =>
    intro es hsz ul tgt anc s hff
    match es with
    | [] => simp [walkEntries_nil, listDirCount]
    | FSEntry.mk name probe lerr ch :: rest =>
      have hch : sizeOf ch ≤ n := by simp at hsz; omega
      have hrest : sizeOf rest ≤ n := by simp at hsz; omega
      cases probe with
      | error err => simp [listAllFF] at hff
      | ok bb =>
        cases bb with
        | false =>
          simp only [listAllFF, Bool.and_eq_true] at hff
          rw [walkEntries_cons_file _ _ _ _ _ _ _ _ _ (cancelOn_none _)]
          obtain ⟨h1, h2, h3⟩ := ih rest hrest ul tgt anc (doCheck s) hff.2
          rw [h1, h2, h3]
          refine ⟨?_, ?_, ?_⟩ <;> simp [listDirCount]
        | true =>
          simp only [listAllFF, Bool.and_eq_true, Option.isNone_iff_eq_none] at hff
          obtain ⟨⟨hl, hc⟩, hr⟩ := hff
          subst hl
          rw [walkEntries_cons_dir _ _ _ _ _ _ _ _ _ (cancelOn_none _),
              walkDir_ok _ _ _ _ _ _ (cancelOn_none _)]
          obtain ⟨h1, h2, h3⟩ := ih ch hch ul (to_long_path (joinPath tgt name) ul)
            (anc ++ [name]) (doCheck (addRow (anc ++ [name]) (doCheck s))) hc
          obtain ⟨h4, h5, h6⟩ := ih rest hrest ul tgt anc
            (walkEntries none ul ch (to_long_path (joinPath tgt name) ul)
              (anc ++ [name]) (doCheck (addRow (anc ++ [name]) (doCheck s)))) hr
          rw [h4, h5, h6, h1, h2, h3]
          refine ⟨?_, ?_, ?_⟩ <;> simp [listDirCount] <;> omega

/-- C1: for a fault-free tree (every probe answers, every listing of a
probed directory succeeds, including the root's) scanned without
cancellation, the number of Rows returned is 1 plus the number of
directories (excluding the root) reachable from the root, and the final
value of the found counter equals that number of Rows. -/
theorem scan_faultfree_counts (rootName rootPath : String) (ul : Bool)
    (rootChildren : List FSEntry) (hff : listAllFF rootChildren = true) :
    (scan_folders_with_progress rootName rootPath ul none rootChildren none).rows.length
        = 1 + listDirCount rootChildren ∧
    (scan_folders_with_progress rootName rootPath ul none rootChildren none).found
        = (scan_folders_with_progress rootName rootPath ul none rootChildren
            none).rows.length := by
  obtain ⟨h1, h2, h3⟩ := walkEntries_faultfree (sizeOf rootChildren) rootChildren
    le_rfl ul (to_long_path (to_long_path rootPath ul) ul) [rootName]
    (doCheck (addRow [rootName] ⟨[], [], 0, 0, [], []⟩)) hff
  have hw : scan_folders_with_progress rootName rootPath ul none rootChildren none
      = walkEntries none ul rootChildren (to_long_path (to_long_path rootPath ul) ul)
          [rootName] (doCheck (addRow [rootName] ⟨[], [], 0, 0, [], []⟩)) := by
    rw [scan_folders_with_progress, walkDir_ok _ _ _ _ _ _ (cancelOn_none _)]
  rw [hw, h1, h2]
  simp

/-- Witness for C1: the fault-free tree with root children B (containing D)
and E (a file), which has 2 reachable directories. -/
theorem scan_faultfree_counts_witness :
    (scan_folders_with_progress "A" "A" false none
        [FSEntry.mk "B" (.ok true) none [FSEntry.mk "D" (.ok true) none []],
         FSEntry.mk "E" (.ok false) none []] none).rows.length
      = 1 + listDirCount
          [FSEntry.mk "B" (.ok true) none [FSEntry.mk "D" (.ok true) none []],
           FSEntry.mk "E" (.ok false) none []] ∧
    (scan_folders_with_progress "A" "A" false none
        [FSEntry.mk "B" (.ok true) none [FSEntry.mk "D" (.ok true) none []],
         FSEntry.mk "E" (.ok false) none []] none).found
      = (scan_folders_with_progress "A" "A" false none
          [FSEntry.mk "B" (.ok true) none [FSEntry.mk "D" (.ok true) none []],
           FSEntry.mk "E" (.ok false) none []] none).rows.length :=
  scan_faultfree_counts "A" "A" false
    [FSEntry.mk "B" (.ok true) none [FSEntry.mk "D" (.ok true) none []],
     FSEntry.mk "E" (.ok false) none []]
    (by simp [listAllFF])

/-! ### C2: every Row starts with the root name and respects the depth bound. -/

theorem walkEntries_rows_inv (n : Nat) : ∀ es : List FSEntry, sizeOf es ≤ n →
    ∀ (ca : Option Nat) (ul : Bool) (tgt : String) (anc : List String)
      (s : ScanState) (rootN : String) (D : Nat),
    anc.head? = some rootN → anc.length + listDepth es ≤ D + 1 →
    (∀ r ∈ s.rows, r.head? = some rootN ∧ r.length ≤ D + 1) →
    ∀ r ∈ (walkEntries ca ul es tgt anc s).rows,
      r.head? = some rootN ∧ r.length ≤ D + 1 := by
  induction n with
  | zero =>
    intro es hsz
    exfalso
    cases es <;> simp at hsz
  | succ n ih =>
    intro es hsz ca ul tgt anc s rootN D hanc hdep hinv
    match es with
    | [] => rw [walkEntries_nil]; exact hinv
    | FSEntry.mk name probe lerr ch :: rest =>
      have hch : sizeOf ch ≤ n := by simp at hsz; omega
      have hrest : sizeOf rest ≤ n := by simp at hsz; omega
      have hdch : 1 + listDepth ch ≤ listDepth (FSEntry.mk name probe lerr ch :: rest) := by
        rw [listDepth]; exact le_max_left _ _
      have hdrest : listDepth rest ≤ listDepth (FSEntry.mk name probe lerr ch :: rest) := by
        rw [listDepth]; exact le_max_right _ _
      by_cases hc : cancelOn ca s.tick = true
      · rw [walkEntries_cons_cancel _ _ _ _ _ _ _ hc]
        simpa using hinv
      · rw [Bool.not_eq_true] at hc
        cases probe with
        | error err =>
          rw [walkEntries_cons_probeErr _ _ _ _ _ _ _ _ _ _ hc]
          refine ih rest hrest ca ul tgt anc _ rootN D hanc (by omega) ?_
          simpa using hinv
        | ok bb =>
          cases bb with
          | false =>
            rw [walkEntries_cons_file _ _ _ _ _ _ _ _ _ hc]
            refine ih rest hrest ca ul tgt anc _ rootN D hanc (by omega) ?_
            simpa using hinv
          | true =>
            rw [walkEntries_cons_dir _ _ _ _ _ _ _ _ _ hc]
            have hrow : (anc ++ [name]).head? = some rootN ∧
                (anc ++ [name]).length ≤ D + 1 := by
              constructor
              · rw [List.head?_append_of_ne_nil]
                · exact hanc
                · intro hnil; rw [hnil] at hanc; simp at hanc
              · simp only [List.length_append, List.length_singleton]
                omega
            have hinv2 : ∀ r ∈ (addRow (anc ++ [name]) (doCheck s)).rows,
                r.head? = some rootN ∧ r.length ≤ D + 1 := by
              intro r hr
              simp only [addRow_rows, doCheck_rows, List.mem_append,
                List.mem_singleton] at hr
              rcases hr with hr | hr
              · exact hinv r hr
              · rw [hr]; exact hrow
            have hdir : ∀ r ∈ (walkDir ca ul (joinPath tgt name) lerr ch
                (anc ++ [name]) (addRow (anc ++ [name]) (doCheck s))).rows,
                r.head? = some rootN ∧ r.length ≤ D + 1 := by
              by_cases hc2 : cancelOn ca (addRow (anc ++ [name]) (doCheck s)).tick = true
              · rw [walkDir_cancel _ _ _ _ _ _ _ hc2]
                simpa using hinv2
              · rw [Bool.not_eq_true] at hc2
                cases lerr with
                | some e =>
                  rw [walkDir_fail _ _ _ _ _ _ _ hc2]
                  simpa using hinv2
                | none =>
                  rw [walkDir_ok _ _ _ _ _ _ hc2]
                  refine ih ch hch ca ul _ (anc ++ [name]) _ rootN D hrow.1 ?_ ?_
                  · simp only [List.length_append, List.length_singleton]
                    omega
                  · simpa using hinv2
            exact ih rest hrest ca ul tgt anc _ rootN D hanc (by omega) hdir

/-- C2: in every execution of the scan (any cancellation moment, any faults,
either long-path flag), every returned Row has the root's own name as its
first element, and every Row's length is at most the tree's maximum depth
plus 1. -/
theorem scan_rows_inv (rootName rootPath : String) (ul : Bool)
    (rootListErr : Option OSErr) (rootChildren : List FSEntry)
    (ca : Option Nat) :
    ∀ r ∈ (scan_folders_with_progress rootName rootPath ul rootListErr
        rootChildren ca).rows,
      r.head? = some rootName ∧ r.length ≤ listDepth rootChildren + 1 := by
  rw [scan_folders_with_progress]
  have hinv : ∀ r ∈ (addRow [rootName] ⟨[], [], 0, 0, [], []⟩).rows,
      r.head? = some rootName ∧ r.length ≤ listDepth rootChildren + 1 := by
    intro r hr
    simp only [addRow_rows] at hr
    simp at hr
    rw [hr]
    simp
  by_cases hc : cancelOn ca (addRow [rootName] ⟨[], [], 0, 0, [], []⟩).tick = true
  · rw [walkDir_cancel _ _ _ _ _ _ _ hc]
    simp
  · rw [Bool.not_eq_true] at hc
    cases rootListErr with
    | some e =>
      rw [walkDir_fail _ _ _ _ _ _ _ hc]
      simp
    | none =>
      rw [walkDir_ok _ _ _ _ _ _ hc]
      refine walkEntries_rows_inv (sizeOf rootChildren) rootChildren le_rfl ca ul _
        [rootName] _ rootName (listDepth rootChildren) rfl
        (by simp only [List.length_singleton]; omega) ?_
      simp

/-- Witness for C2 at the concrete row ["A","B"] of a one-directory tree. -/
theorem scan_rows_inv_witness :
    (["A", "B"] : List String).head? = some "A" ∧
    (["A", "B"] : List String).length
      ≤ listDepth [FSEntry.mk "B" (.ok true) none []] + 1 :=
  scan_rows_inv "A" "A" false none [FSEntry.mk "B" (.ok true) none []] none
    ["A", "B"]
    (by simp [scan_folders_with_progress, walkDir, walkEntries, cancelOn,
          doCheck, addRow, to_long_path, joinPath])

/-! ### C10: the rows sequence is prefix-closed in preorder. -/

/-- A sequence of Rows is prefix-closed when every Row of length > 1 is
preceded, strictly earlier in the sequence, by the Row obtained by dropping
its last component. -/
def prefixClosed (R : List (List String)) : Prop :=
  ∀ l r t, R = l ++ r :: t → 1 < r.length → r.dropLast ∈ l

theorem append_singleton_cases {α : Type} (l : List α) (x : α) (t R : List α)
    (r : α) (h : l ++ x :: t = R ++ [r]) :
    (t = [] ∧ l = R ∧ x = r) ∨ ∃ t2, t = t2 ++ [r] ∧ R = l ++ x :: t2 := by
  rcases List.eq_nil_or_concat t with ht | ⟨t2, a, ht⟩
  · subst ht
    have h2 := List.append_inj' h (by simp)
    left
    refine ⟨rfl, h2.1, ?_⟩
    have := h2.2
    simpa using this
  · rw [List.concat_eq_append] at ht
    subst ht
    right
    rw [show l ++ x :: (t2 ++ [a]) = (l ++ x :: t2) ++ [a] by simp] at h
    have h2 := List.append_inj' h (by simp)
    have ha : a = r := by simpa using h2.2
    exact ⟨t2, by rw [ha], h2.1.symm⟩

theorem prefixClosed_snoc (R : List (List String)) (r : List String)
    (hpc : prefixClosed R) (hmem : r.dropLast ∈ R) :
    prefixClosed (R ++ [r]) := by
  intro l x t hdec hlen
  rcases append_singleton_cases l x t R r hdec.symm with ⟨_, hl, hx⟩ | ⟨t2, _, hR⟩
  · subst hl; subst hx; exact hmem
  · exact hpc l x t2 hR hlen

theorem walkEntries_prefixClosed (n : Nat) : ∀ es : List FSEntry, sizeOf es ≤ n →
    ∀ (ca : Option Nat) (ul : Bool) (tgt : String) (anc : List String)
      (s : ScanState), anc ∈ s.rows → prefixClosed s.rows →
    prefixClosed (walkEntries ca ul es tgt anc s).rows ∧
    ∃ d, (walkEntries ca ul es tgt anc s).rows = s.rows ++ d := by
  induction n with
  | zero =>
    intro es hsz
    exfalso
    cases es <;> simp at hsz
  | succ n ih =>
    intro es hsz ca ul tgt anc s hmem hpc
    match es with
    | [] => exact ⟨by rwa [walkEntries_nil], [], by rw [walkEntries_nil]; simp⟩
    | FSEntry.mk name probe lerr ch :: rest =>
      have hch : sizeOf ch ≤ n := by simp at hsz; omega
      have hrest : sizeOf rest ≤ n := by simp at hsz; omega
      by_cases hc : cancelOn ca s.tick = true
      · rw [walkEntries_cons_cancel _ _ _ _ _ _ _ hc]
        exact ⟨by simpa using hpc, [], by simp⟩
      · rw [Bool.not_eq_true] at hc
        cases probe with
        | error err =>
          rw [walkEntries_cons_probeErr _ _ _ _ _ _ _ _ _ _ hc]
          obtain ⟨h1, d, h2⟩ := ih rest hrest ca ul tgt anc
            (addSkip (joinPath tgt name) (probeReason err) (doCheck s))
            (by simpa using hmem) (by simpa using hpc)
          exact ⟨h1, d, by simpa using h2⟩
        | ok bb =>
          cases bb with
          | false =>
            rw [walkEntries_cons_file _ _ _ _ _ _ _ _ _ hc]
            obtain ⟨h1, d, h2⟩ := ih rest hrest ca ul tgt anc (doCheck s)
              (by simpa using hmem) (by simpa using hpc)
            exact ⟨h1, d, by simpa using h2⟩
          | true =>
            rw [walkEntries_cons_dir _ _ _ _ _ _ _ _ _ hc]
            have hrows2 : (addRow (anc ++ [name]) (doCheck s)).rows
                = s.rows ++ [anc ++ [name]] := by simp
            have hmem2 : anc ++ [name] ∈ (addRow (anc ++ [name]) (doCheck s)).rows := by
              simp
            have hpc2 : prefixClosed (addRow (anc ++ [name]) (doCheck s)).rows := by
              rw [hrows2]
              exact prefixClosed_snoc _ _ hpc (by rwa [List.dropLast_concat])
            have hdir : prefixClosed (walkDir ca ul (joinPath tgt name) lerr ch
                  (anc ++ [name]) (addRow (anc ++ [name]) (doCheck s))).rows ∧
                ∃ d, (walkDir ca ul (joinPath tgt name) lerr ch (anc ++ [name])
                  (addRow (anc ++ [name]) (doCheck s))).rows
                    = s.rows ++ [anc ++ [name]] ++ d := by
              by_cases hc2 : cancelOn ca (addRow (anc ++ [name]) (doCheck s)).tick = true
              · rw [walkDir_cancel _ _ _ _ _ _ _ hc2]
                exact ⟨by simpa using hpc2, [], by simp⟩
              · rw [Bool.not_eq_true] at hc2
                cases lerr with
                | some e =>
                  rw [walkDir_fail _ _ _ _ _ _ _ hc2]
                  exact ⟨by simpa using hpc2, [], by simp⟩
                | none =>
                  rw [walkDir_ok _ _ _ _ _ _ hc2]
                  obtain ⟨h1, d, h2⟩ := ih ch hch ca ul
                    (to_long_path (joinPath tgt name) ul) (anc ++ [name])
                    (doCheck (addRow (anc ++ [name]) (doCheck s)))
                    (by simp) (by simpa using hpc2)
                  refine ⟨h1, d, ?_⟩
                  rw [h2]
                  simp
            obtain ⟨hd1, d, hd2⟩ := hdir
            obtain ⟨h1, d2, h2⟩ := ih rest hrest ca ul tgt anc
              (walkDir ca ul (joinPath tgt name) lerr ch (anc ++ [name])
                (addRow (anc ++ [name]) (doCheck s)))
              (by rw [hd2]; exact List.mem_append_left _ (List.mem_append_left _ hmem))
              hd1
            refine ⟨h1, [anc ++ [name]] ++ d ++ d2, ?_⟩
            rw [h2, hd2]
            simp

/-- C10: the rows sequence returned by the scan is prefix-closed in
depth-first preorder: whenever the returned rows decompose as `l ++ r :: t`
with `r` a Row of length greater than 1, the Row `r.dropLast` — the Row of
the entry's parent directory, appended before the recursive descent — occurs
strictly earlier in the sequence, i.e. within `l`.  This holds in every
execution, with or without faults or cancellation. -/
theorem scan_rows_prefix_closed (rootName rootPath : String) (ul : Bool)
    (rootListErr : Option OSErr) (rootChildren : List FSEntry)
    (ca : Option Nat) (l t : List (List String)) (r : List String)
    (hdec : (scan_folders_with_progress rootName rootPath ul rootListErr
        rootChildren ca).rows = l ++ r :: t)
    (hlen : 1 < r.length) :
    r.dropLast ∈ l := by
  suffices hpc : prefixClosed (scan_folders_with_progress rootName rootPath ul
      rootListErr rootChildren ca).rows from hpc l r t hdec hlen
  rw [scan_folders_with_progress]
  have hpc0 : prefixClosed (addRow [rootName] ⟨[], [], 0, 0, [], []⟩).rows := by
    intro l2 r2 t2 hd hl
    simp only [addRow_rows] at hd
    rcases l2 with _ | ⟨a, l3⟩
    · simp at hd
      rw [← hd.1] at hl
      simp at hl
    · simp at hd
  have hmem0 : [rootName] ∈ (addRow [rootName] ⟨[], [], 0, 0, [], []⟩).rows := by
    simp
  by_cases hc : cancelOn ca (addRow [rootName] ⟨[], [], 0, 0, [], []⟩).tick = true
  · rw [walkDir_cancel _ _ _ _ _ _ _ hc]
    simpa using hpc0
  · rw [Bool.not_eq_true] at hc
    cases rootListErr with
    | some e =>
      rw [walkDir_fail _ _ _ _ _ _ _ hc]
      simpa using hpc0
    | none =>
      rw [walkDir_ok _ _ _ _ _ _ hc]
      exact (walkEntries_prefixClosed (sizeOf rootChildren) rootChildren le_rfl
        ca ul _ [rootName] _ (by simp) (by simpa using hpc0)).1

/-- Witness for C10 at the one-directory tree: the returned rows are
[["A"], ["A","B"]], and dropping the last component of ["A","B"] lands in
the preceding part [["A"]]. -/
theorem scan_rows_prefix_closed_witness :
    (["A", "B"] : List String).dropLast ∈ [(["A"] : List String)] :=
  scan_rows_prefix_closed "A" "A" false none
    [FSEntry.mk "B" (.ok true) none []] none [["A"]] [] ["A", "B"]
    (by simp [scan_folders_with_progress, walkDir, walkEntries, cancelOn,
          doCheck, addRow, to_long_path, joinPath])
    (by simp)

/-! ### C7: after the cancellation flag flips, at most one further append. -/

theorem lateCount_congr (f : Nat) (s s2 : ScanState)
    (hr : s2.rowTicks = s.rowTicks) (hs : s2.skipTicks = s.skipTicks) :
    lateCount f s2 = lateCount f s := by
  simp [lateCount, hr, hs]

theorem lateCount_doCheck (f : Nat) (s : ScanState) :
    lateCount f (doCheck s) = lateCount f s := rfl

theorem lateCount_addRow (f : Nat) (r : List String) (s : ScanState) :
    lateCount f (addRow r s)
      = lateCount f s + (if f ≤ s.tick then 1 else 0) := by
  simp only [lateCount, addRow_rowTicks, addRow_skipTicks, List.countP_append,
    List.countP_cons, List.countP_nil]
  split <;> split
  all_goals simp_all
  all_goals omega

theorem lateCount_addSkip (f : Nat) (p reason : String) (s : ScanState) :
    lateCount f (addSkip p reason s)
      = lateCount f s + (if f ≤ s.tick then 1 else 0) := by
  simp only [lateCount, addSkip_rowTicks, addSkip_skipTicks, List.countP_append,
    List.countP_cons, List.countP_nil]
  split <;> split
  all_goals simp_all
  all_goals omega

/-- The two properties a piece of the walk enjoys with respect to a
cancellation flag that flips at tick `f`: once the flag reads true it
appends nothing (it performs at most its own cancellation check), and from a
state before the flip it appends at most one late item, and only when its
final tick has passed the flip. -/
def LateOK (f : Nat) (g : ScanState → ScanState) : Prop :=
  ∀ s : ScanState,
    (f ≤ s.tick → (g s).rowTicks = s.rowTicks ∧ (g s).skipTicks = s.skipTicks ∧
      s.tick ≤ (g s).tick) ∧
    (s.tick < f → s.tick ≤ (g s).tick ∧
      lateCount f (g s) ≤ lateCount f s + (if f ≤ (g s).tick then 1 else 0))

/-- Sequencing: a first step that appends at most one late item followed by
a `LateOK` continuation still appends at most one late item in total. -/
theorem late_comp_B (f : Nat) (g h : ScanState → ScanState)
    (hgB : ∀ s : ScanState, s.tick < f → s.tick ≤ (g s).tick ∧
      lateCount f (g s) ≤ lateCount f s + (if f ≤ (g s).tick then 1 else 0))
    (hh : LateOK f h) (s : ScanState) (hlt : s.tick < f) :
    s.tick ≤ (h (g s)).tick ∧
    lateCount f (h (g s)) ≤ lateCount f s + (if f ≤ (h (g s)).tick then 1 else 0) := by
  obtain ⟨hg1, hg2⟩ := hgB s hlt
  by_cases h2 : f ≤ (g s).tick
  · obtain ⟨ha1, ha2, ha3⟩ := (hh (g s)).1 h2
    have hl : lateCount f (h (g s)) = lateCount f (g s) := lateCount_congr f _ _ ha1 ha2
    have ht : f ≤ (h (g s)).tick := le_trans h2 ha3
    rw [hl, if_pos ht]
    constructor
    · omega
    · rw [if_pos h2] at hg2
      omega
  · rw [not_le] at h2
    obtain ⟨hb1, hb2⟩ := (hh (g s)).2 h2
    rw [if_neg (by omega)] at hg2
    constructor
    · omega
    · omega

theorem addSkip_doCheck_lateB (f : Nat) (p reason : String) (s : ScanState)
    (hlt : s.tick < f) :
    s.tick ≤ (addSkip p reason (doCheck s)).tick ∧
    lateCount f (addSkip p reason (doCheck s)) ≤
      lateCount f s + (if f ≤ (addSkip p reason (doCheck s)).tick then 1 else 0) := by
  rw [lateCount_addSkip]
  simp only [lateCount_doCheck, doCheck_tick, addSkip_tick]
  constructor
  · omega
  · split <;> split <;> omega

theorem addRow_doCheck_lateB (f : Nat) (r : List String) (s : ScanState)
    (hlt : s.tick < f) :
    s.tick ≤ (addRow r (doCheck s)).tick ∧
    lateCount f (addRow r (doCheck s)) ≤
      lateCount f s + (if f ≤ (addRow r (doCheck s)).tick then 1 else 0) := by
  rw [lateCount_addRow]
  simp only [lateCount_doCheck, doCheck_tick, addRow_tick]
  constructor
  · omega
  · split <;> split <;> omega

theorem doCheck_lateB (f : Nat) (s : ScanState) (_hlt : s.tick < f) :
    s.tick ≤ (doCheck s).tick ∧
    lateCount f (doCheck s) ≤
      lateCount f s + (if f ≤ (doCheck s).tick then 1 else 0) := by
  rw [lateCount_doCheck]
  constructor
  · simp
  · split <;> omega

theorem walkDir_late_of (f : Nat) (ul : Bool) (p : String) (lerr : Option OSErr)
    (ch : List FSEntry) (anc : List String)
    (hch : LateOK f (walkEntries (some f) ul ch (to_long_path p ul) anc)) :
    LateOK f (walkDir (some f) ul p lerr ch anc) := by
  intro s
  constructor
  · intro hle
    have hc : cancelOn (some f) s.tick = true := by
      simp only [cancelOn, decide_eq_true_eq]
      omega
    rw [walkDir_cancel _ _ _ _ _ _ _ hc]
    exact ⟨rfl, rfl, by simp⟩
  · intro hlt
    have hc : cancelOn (some f) s.tick = false := by
      simp only [cancelOn, decide_eq_false_iff_not]
      omega
    cases lerr with
    | some e =>
      rw [walkDir_fail _ _ _ _ _ _ _ hc]
      exact addSkip_doCheck_lateB f p (listReason e) s hlt
    | none =>
      rw [walkDir_ok _ _ _ _ _ _ hc]
      exact late_comp_B f doCheck _ (fun s2 h2 => doCheck_lateB f s2 h2) hch s hlt

theorem walkEntries_late (n : Nat) : ∀ es : List FSEntry, sizeOf es ≤ n →
    ∀ (f : Nat) (ul : Bool) (tgt : String) (anc : List String),
    LateOK f (walkEntries (some f) ul es tgt anc) := by
  induction n with
  | zero =>
    intro es hsz
    exfalso
    cases es <;> simp at hsz
  | succ n ih =>
    intro es hsz f ul tgt anc
    match es with
    | [] =>
      intro s
      rw [walkEntries_nil]
      refine ⟨fun _ => ⟨rfl, rfl, le_rfl⟩, fun _ => ⟨le_rfl, ?_⟩⟩
      split <;> omega
    | FSEntry.mk name probe lerr ch :: rest =>
      have hch : sizeOf ch ≤ n := by simp at hsz; omega
      have hrest : sizeOf rest ≤ n := by simp at hsz; omega
      intro s
      constructor
      · intro hle
        have hc : cancelOn (some f) s.tick = true := by
          simp only [cancelOn, decide_eq_true_eq]
          omega
        rw [walkEntries_cons_cancel _ _ _ _ _ _ _ hc]
        exact ⟨rfl, rfl, by simp⟩
      · intro hlt
        have hc : cancelOn (some f) s.tick = false := by
          simp only [cancelOn, decide_eq_false_iff_not]
          omega
        cases probe with
        | error err =>
          rw [walkEntries_cons_probeErr _ _ _ _ _ _ _ _ _ _ hc]
          exact late_comp_B f _ _
            (fun s2 h2 => addSkip_doCheck_lateB f (joinPath tgt name)
              (probeReason err) s2 h2)
            (ih rest hrest f ul tgt anc) s hlt
        | ok bb =>
          cases bb with
          | false =>
            rw [walkEntries_cons_file _ _ _ _ _ _ _ _ _ hc]
            exact late_comp_B f _ _ (fun s2 h2 => doCheck_lateB f s2 h2)
              (ih rest hrest f ul tgt anc) s hlt
          | true =>
            rw [walkEntries_cons_dir _ _ _ _ _ _ _ _ _ hc]
            refine late_comp_B f
              (fun s2 => walkDir (some f) ul (joinPath tgt name) lerr ch
                (anc ++ [name]) (addRow (anc ++ [name]) (doCheck s2)))
              (walkEntries (some f) ul rest tgt anc) ?_
              (ih rest hrest f ul tgt anc) s hlt
            intro s2 h2
            exact late_comp_B f
              (fun s3 => addRow (anc ++ [name]) (doCheck s3))
              (walkDir (some f) ul (joinPath tgt name) lerr ch (anc ++ [name]))
              (fun s3 h3 => addRow_doCheck_lateB f (anc ++ [name]) s3 h3)
              (walkDir_late_of f ul (joinPath tgt name) lerr ch (anc ++ [name])
                (ih ch hch f ul (to_long_path (joinPath tgt name) ul) (anc ++ [name])))
              s2 h2

/-- C7: however the UI thread's cancellation request interleaves with the
walk (the flag flips at event tick `f`, each cooperative check and each
append being one event), at most one Row-or-SkippedEntry append in the whole
scan happens at a tick at which the flag already reads true: every walk_dir
invocation and loop iteration entered after the flip observes the flag and
returns without appending, and only the single entry already in flight may
still complete. -/
theorem scan_cancel_late_bound (rootName rootPath : String) (ul : Bool)
    (rootListErr : Option OSErr) (rootChildren : List FSEntry) (f : Nat) :
    lateCount f (scan_folders_with_progress rootName rootPath ul rootListErr
        rootChildren (some f)) ≤ 1 := by
  rw [scan_folders_with_progress]
  have hwd := walkDir_late_of f ul (to_long_path rootPath ul) rootListErr
    rootChildren [rootName]
    (walkEntries_late (sizeOf rootChildren) rootChildren le_rfl f ul _ [rootName])
  have h0 : lateCount f (addRow [rootName] ⟨[], [], 0, 0, [], []⟩)
      = if f ≤ 0 then 1 else 0 := by
    simp [lateCount, List.countP_cons]
  by_cases hf : f ≤ (addRow [rootName] ⟨[], [], 0, 0, [], []⟩).tick
  · obtain ⟨h1, h2, _⟩ := (hwd _).1 hf
    rw [lateCount_congr f _ _ h1 h2, h0]
    split <;> omega
  · rw [not_le] at hf
    obtain ⟨_, h2⟩ := (hwd _).2 hf
    rw [h0] at h2
    have hf0 : ¬ f ≤ 0 := by simp only [addRow_tick] at hf; omega
    rw [if_neg hf0] at h2
    split at h2 <;> omega
